import Mathlib

/-!
Verification development for `indoor_mapper.py`: a shallow embedding of the
direction algebra, the graph database, the fork command (consistency and
identification engine followed by the BFS guidance engine), the undo command,
and the JSON-level serialization, together with theorems about the claims of
the specification.

Conventions of the embedding:
* Python dictionaries keyed by `Direction` become `DirMap`, an explicit
  four-slot map (`none` = key absent).
* A branch slot holds `Option Nat` (`none` = the JSON null "unexplored",
  `some i` = node id), so a `DirMap (Option Nat)` slot is
  `some none` for an unexplored branch and `some (some i)` for an edge.
* Python runtime errors (IndexError, KeyError, ValueError, unpacking a
  `None`) become `none` results of `Option`-valued functions.
* The two unbounded loops of the guidance engine take an explicit fuel
  argument; running out of fuel is reported separately from a crash.
-/

/-- The four-valued cyclic direction type (`class Direction(IntEnum)`). -/
inductive Direction where
  | forward
  | right
  | backward
  | left
deriving DecidableEq, Repr, Fintype

/-- The underlying `IntEnum` value of a direction. -/
def Direction.val : Direction → Nat
  | .forward => 0
  | .right => 1
  | .backward => 2
  | .left => 3

/-- `Direction(n)` for the mod-4 representative of `n` (constructor call on an int). -/
def Direction.fromNat (n : Nat) : Direction :=
  match n % 4 with
  | 0 => .forward
  | 1 => .right
  | 2 => .backward
  | _ => .left

/-- `__add__`: `Direction((self.value + other.value) % 4)`. -/
def Direction.add (a b : Direction) : Direction :=
  Direction.fromNat ((a.val + b.val) % 4)

/-- `__sub__`: `Direction((self.value - other.value) % 4)` with Python's
nonnegative `%`; since both values are below 4, this equals
`(a.val + 4 - b.val) % 4` on naturals. -/
def Direction.sub (a b : Direction) : Direction :=
  Direction.fromNat ((a.val + 4 - b.val) % 4)

instance : Add Direction := ⟨Direction.add⟩

instance : Sub Direction := ⟨Direction.sub⟩

/-- `opposite`: `self + Direction.backward`. -/
def Direction.opposite (a : Direction) : Direction :=
  a + Direction.backward

/-- `DIRECTIONS = 'wdsa'`. -/
def DIRECTIONS : List Char := ['w', 'd', 's', 'a']

/-- `letter`: `DIRECTIONS[self.value]`. -/
def Direction.letter : Direction → Char
  | .forward => 'w'
  | .right => 'd'
  | .backward => 's'
  | .left => 'a'

/-- `letter_dir`: `Direction(DIRECTIONS.index(letter))`; an unknown letter
raises `ValueError`, modelled as `none`. -/
def letter_dir (c : Char) : Option Direction :=
  (DIRECTIONS.findIdx? (fun x => x = c)).map Direction.fromNat

/-- Parsing a whole direction string, as `set(letter_dir(d) for d in dirs)`
consumes it; any bad letter aborts the invocation. -/
def parseDirs (s : List Char) : Option (List Direction) :=
  s.mapM letter_dir

/-- The serialized name of a direction (`Direction.name` in Python, used by
`dump_dbfile` and looked up again by `Direction[...]` in `MyDecoder`). -/
def Direction.name : Direction → String
  | .forward => "forward"
  | .right => "right"
  | .backward => "backward"
  | .left => "left"

/-- `Direction[s]`: name lookup; an unknown name raises `KeyError`,
modelled as `none`. -/
def directionOfName (s : String) : Option Direction :=
  if s = "forward" then some .forward
  else if s = "right" then some .right
  else if s = "backward" then some .backward
  else if s = "left" then some .left
  else none

/-- The key a direction-keyed top-level entry gets when `json.dump` writes a
dict whose key is an `IntEnum` member (the int value rendered as a string). -/
def dirIntKey (d : Direction) : String :=
  toString d.val

/-- All four directions; stands for iteration over the key domain. The
places that iterate a dict in the source either sort the keys by an
injective key function or build a set, so the traversal order chosen here
is immaterial. -/
def allDirs : List Direction := [.forward, .right, .backward, .left]

/-- A Python dict keyed by `Direction`: one optional slot per key
(`none` = key absent). -/
structure DirMap (α : Type) where
  fw : Option α
  ri : Option α
  bk : Option α
  lf : Option α
deriving DecidableEq, Repr

/-- `m.get(d)` on a direction-keyed dict. -/
def DirMap.get {α : Type} (m : DirMap α) : Direction → Option α
  | .forward => m.fw
  | .right => m.ri
  | .backward => m.bk
  | .left => m.lf

/-- `m[d] = v` on a direction-keyed dict (insert or overwrite). -/
def DirMap.set {α : Type} (m : DirMap α) (d : Direction) (v : α) : DirMap α :=
  match d with
  | .forward => { m with fw := some v }
  | .right => { m with ri := some v }
  | .backward => { m with bk := some v }
  | .left => { m with lf := some v }

/-- The empty direction-keyed dict. -/
def DirMap.empty {α : Type} : DirMap α := ⟨none, none, none, none⟩

/-- A node's `branches` dict: direction ↦ node id or JSON null. -/
abbrev Branches := DirMap (Option Nat)

/-- A node record: the `branches` dict, the `description` string, and the
extra top-level direction-keyed entries that line 105 of the source writes
outside `branches`. -/
structure Node where
  branches : Branches
  description : String
  extra : DirMap Nat
deriving DecidableEq, Repr

/-- A log entry: `afterturn`, `time_enter`, `node`. -/
structure LogEntry where
  afterturn : Direction
  time_enter : String
  node : Nat
deriving DecidableEq, Repr

/-- The whole database: the ordered node list and the append-only log. -/
structure DB where
  nodes : List Node
  log : List LogEntry
deriving DecidableEq, Repr

/-- The database written by `begin`: one root node with a single unexplored
`forward` branch, and one log entry at node 0 facing forward. -/
def beginDB (time : String) : DB :=
  { nodes := [{ branches := DirMap.empty.set .forward none
                description := "root node"
                extra := DirMap.empty }]
    log := [{ afterturn := .forward, time_enter := time, node := 0 }] }

/-- The operator's answer at the disambiguation prompt: either an integer
selection of an existing node id or free text for a new description. -/
inductive Choice where
  | pick (i : Nat)
  | describe (s : String)
deriving DecidableEq, Repr

/-- Membership test of the reported relative-direction set
(`branches = set(letter_dir(d) for d in dirs)`). -/
def reportedSet (dirs : List Direction) : Direction → Bool :=
  fun d => dirs.contains d

/-- Membership test of `abs_branches = set(x + currently_facing for x in
branches)` with `behind` added. -/
def absBranches (dirs : List Direction) (facing : Direction) : Direction → Bool :=
  fun d => allDirs.any (fun x => reportedSet dirs x && (x + facing == d))
    || (d == facing.opposite)

/-- Membership test of the key set of a `branches` dict. -/
def keysOf (b : Branches) : Direction → Bool :=
  fun d => (b.get d).isSome

/-- The stored branch directions re-expressed relative to the current facing,
as printed in the conflict message
(`' '.join((x - currently_facing).name for x in node['branches'].keys())`). -/
def storedRelSet (keys : Direction → Bool) (facing : Direction) : Direction → Bool :=
  fun r => allDirs.any (fun x => keys x && (x - facing == r))

/-- Equality of two direction sets. -/
def dirSetEq (s t : Direction → Bool) : Bool :=
  allDirs.all (fun d => s d == t d)

/-- `len` of a direction set. -/
def dirSetSize (s : Direction → Bool) : Nat :=
  (allDirs.filter s).length

/-- `next(((n, node) for n, node in enumerate(db['nodes']) if
node['branches'].get(behind) == last_node_id), (-1, None))`: the first node
(with its index) whose `behind` branch equals the previous node's id; `get`
yields `None` for an absent key and `None == int` is false, so only a slot
holding exactly `last_node_id` matches. -/
def findKnownAux (behind : Direction) (lid : Nat) :
    Nat → List Node → Option (Nat × Node)
  | _, [] => none
  | i, n :: rest =>
    if n.branches.get behind = some (some lid) then some (i, n)
    else findKnownAux behind lid (i + 1) rest

/-- Search all nodes for a known node, starting at index 0. -/
def findKnown (nodes : List Node) (behind : Direction) (lid : Nat) :
    Option (Nat × Node) :=
  findKnownAux behind lid 0 nodes

/-- `{d: None for d in abs_branches}` as a `Branches` dict. -/
def branchesOfSet (s : Direction → Bool) : Branches :=
  ⟨if s .forward then some none else none,
   if s .right then some none else none,
   if s .backward then some none else none,
   if s .left then some none else none⟩

/-- A freshly created node: all of `abs_branches` unexplored, then the
`behind` slot pointed back at `last_node_id`, with the given description. -/
def newNode (dirs : List Direction) (facing : Direction) (lid : Nat)
    (desc : String) : Node :=
  { branches := (branchesOfSet (absBranches dirs facing)).set facing.opposite (some lid)
    description := desc
    extra := DirMap.empty }

/-- `db['nodes'][i]` followed by a field update and write-back; `none` when
the index is out of range (IndexError). -/
def updateNodeAt (nodes : List Node) (i : Nat) (f : Node → Node) :
    Option (List Node) :=
  match nodes[i]? with
  | none => none
  | some n => some (nodes.set i (f n))

/-- Outcome of the consistency and identification engine. -/
inductive IdentRes where
  | conflict (nodeId : Nat) (given stored : Direction → Bool)
  | resolved (nodes : List Node) (nodeId : Nat)

/-- Line 134: `db['nodes'][last_node_id]['branches'][currently_facing] =
node_id`, the common tail of every identification path, packaging the
resolved node id. -/
def linkLast (ns : List Node) (lid : Nat) (facing : Direction) (nid : Nat) :
    Option IdentRes :=
  match updateNodeAt ns lid
      (fun n => { n with branches := n.branches.set facing (some nid) }) with
  | none => none
  | some ns2 => some (.resolved ns2 nid)

/-- The consistency and identification engine (lines 77-134 of the source)
with the Python locals `currently_facing` and `last_node_id` passed
explicitly (`behind = currently_facing.opposite()`): resolve the explorer's
new location to a known node, a new node, or an operator-disambiguated node,
and link the previous node's `facing` branch to it. A topology conflict
reports the reported and the stored relative direction sets. Line 105 of the
known-node path writes the resolved id into the previous node's record under
the top-level key `currently_facing`, outside `branches` (modelled by the
`extra` field). -/
def identifyCore (nodes : List Node) (facing : Direction) (lid : Nat)
    (dirs : List Direction) (choice : Choice) : Option IdentRes :=
  match findKnown nodes facing.opposite lid with
  | some (nid, node) =>
    if dirSetEq (keysOf node.branches) (absBranches dirs facing) then
      match updateNodeAt nodes lid
          (fun n => { n with extra := n.extra.set facing nid }) with
      | none => none
      | some ns1 => linkLast ns1 lid facing nid
    else
      some (.conflict nid (reportedSet dirs)
        (storedRelSet (keysOf node.branches) facing))
  | none =>
    if dirSetSize (reportedSet dirs) ≤ 1 then
      linkLast (nodes ++ [newNode dirs facing lid ""]) lid facing nodes.length
    else
      match choice with
      | .pick i =>
        match nodes[i]? with
        | none => none
        | some _ => linkLast nodes lid facing i
      | .describe s =>
        linkLast (nodes ++ [newNode dirs facing lid s]) lid facing nodes.length

/-- The identification engine as invoked by `fork`, reading
`currently_facing` and `last_node_id` off the last log entry. -/
def identify (nodes : List Node) (last : LogEntry) (dirs : List Direction)
    (choice : Choice) : Option IdentRes :=
  identifyCore nodes last.afterturn last.node dirs choice

/-- Pointwise update of a map keyed by `Option Nat` (node id or the `None`
placeholder), as assignment into the `distance` / `parent` dicts. -/
def mapSet {β : Type} (m : Option Nat → Option β) (k : Option Nat) (v : β) :
    Option Nat → Option β :=
  fun x => if x = k then some v else m x

/-- The BFS bookkeeping: the `distance` and `parent` dicts (outer `Option`
is key presence; a parent value is `none` for the start node and
`(node, direction)` otherwise), the FIFO `frontier`, and the
`found_unexplored` flag. -/
structure BFSCore where
  dist : Option Nat → Option Nat
  par : Option Nat → Option (Option (Nat × Direction))
  frontier : List (Option Nat)
  found : Bool

/-- `distance = {node_id: 0}`, `parent = {node_id: None}`,
`frontier = [node_id]`, `found_unexplored = False`. -/
def initBFS (start : Nat) : BFSCore :=
  { dist := mapSet (fun _ => none) (some start) 0
    par := mapSet (fun _ => none) (some start) none
    frontier := [some start]
    found := false }

/-- The sort key of the direction-biased visiting order:
`lambda x: x - currently_facing + Direction.right` compared as ints. -/
def branchKeyVal (facing d : Direction) : Nat :=
  (d - facing + Direction.right).val

/-- Insertion into a descending-sorted list (ties keep the inserted element
first, but the key function is injective so ties cannot occur). -/
def insertDesc (k : Direction → Nat) (d : Direction) :
    List Direction → List Direction
  | [] => [d]
  | e :: rest => if k e ≤ k d then d :: e :: rest else e :: insertDesc k d rest

/-- `sorted(..., reverse=True)` by a numeric key. -/
def sortDesc (k : Direction → Nat) : List Direction → List Direction
  | [] => []
  | d :: rest => insertDesc k d (sortDesc k rest)

/-- `sorted(current_node['branches'].keys(), key=..., reverse=True)`: the
key function is injective on directions, so the result does not depend on
the dict's insertion order. -/
def sortedKeys (b : Branches) (facing : Direction) : List Direction :=
  sortDesc (branchKeyVal facing) (allDirs.filter (fun d => (b.get d).isSome))

/-- The body of the `for d in sorted(...)` loop expanding one node.
For each branch: if the target is `None` or undiscovered, record distance
and parent; a `None` target sets `found_unexplored`, and — only when the
expanded node is the start node and the relative direction equals the
forced-turn override — breaks out immediately (skipping the frontier
append); otherwise the target is appended to the frontier. -/
def expandDirs (start : Nat) (facing : Direction) (force : Option Direction)
    (current : Nat) (bs : Branches) (dc : Nat) :
    List Direction → BFSCore → BFSCore
  | [], st => st
  | d :: rest, st =>
    match bs.get d with
    | none => expandDirs start facing force current bs dc rest st
    | some nextId =>
      if nextId = none ∨ st.dist nextId = none then
        let st1 : BFSCore :=
          { st with dist := mapSet st.dist nextId (dc + 1)
                    par := mapSet st.par nextId (some (current, d)) }
        if nextId = none then
          let st2 : BFSCore := { st1 with found := true }
          if current = start ∧ force = some (d - facing) then st2
          else expandDirs start facing force current bs dc rest
            { st2 with frontier := st2.frontier ++ [nextId] }
        else
          expandDirs start facing force current bs dc rest
            { st1 with frontier := st1.frontier ++ [nextId] }
      else expandDirs start facing force current bs dc rest st

/-- Result of the `while frontier` loop. `ok` is a normal exit (break on
`found_unexplored`, or an emptied frontier); the other constructors are the
Python crashes: popping the `None` placeholder (`db['nodes'][None]`), a
node-list index out of range, a missing `distance` key — plus fuel
exhaustion, which distinguishes an undecided run from a crash. -/
inductive LoopRes where
  | ok (st : BFSCore)
  | nofuel
  | badPop
  | noNode
  | noDist

/-- The `while frontier` BFS loop (lines 147-163 of the source), with fuel. -/
def bfsLoop (nodes : List Node) (start : Nat) (facing : Direction)
    (force : Option Direction) : Nat → BFSCore → LoopRes
  | 0, _ => .nofuel
  | fuel + 1, st =>
    match st.frontier with
    | [] => .ok st
    | x :: rest =>
      match x with
      | none => .badPop
      | some current =>
        match nodes[current]? with
        | none => .noNode
        | some curNode =>
          match st.dist (some current) with
          | none => .noDist
          | some dc =>
            let st1 := expandDirs start facing force current curNode.branches dc
              (sortedKeys curNode.branches facing) { st with frontier := rest }
            if st1.found then .ok st1
            else bfsLoop nodes start facing force fuel st1

/-- `current = None; while current != node_id: current, d = parent[current]`:
walk the parent chain from the unexplored placeholder up to the start node
and return the last edge direction taken (the branch chosen out of the start
node). A missing parent key (KeyError) or a `None` parent value (unpacking
`None`) is a crash. -/
def selectWalk (par : Option Nat → Option (Option (Nat × Direction)))
    (start : Nat) : Nat → Option Nat → Option Direction
  | 0, _ => none
  | fuel + 1, cur =>
    match par cur with
    | none => none
    | some none => none
    | some (some (c, d)) =>
      if c = start then some d
      else selectWalk par start fuel (some c)

/-- `directions = []; current = 0; while parent[current]: ...`: collect the
parent edges from node 0 upward, in append order. -/
def rootPath (par : Option Nat → Option (Option (Nat × Direction))) :
    Nat → Nat → Option (List (Nat × Direction))
  | 0, _ => none
  | fuel + 1, cur =>
    match par (some cur) with
    | none => none
    | some none => some []
    | some (some (c, d)) =>
      match rootPath par fuel c with
      | none => none
      | some rest => some ((c, d) :: rest)

/-- The printing loop of the walk back to the root: for each hop, the
relative turn given the orientation threaded so far, with the hop's node
description. -/
def donePrints (nodes : List Node) :
    Direction → List (Nat × Direction) → Option (List (Nat × Direction × String))
  | _, [] => some []
  | facing, (nid, d) :: rest =>
    match nodes[nid]? with
    | none => none
    | some n =>
      match donePrints nodes d rest with
      | none => none
      | some tail => some ((nid, d - facing, n.description) :: tail)

/-- The guidance engine's visible outcome: either `You should turn <rel>` or
the exploration-complete announcement with the printed walk back to root. -/
inductive Instr where
  | turn (rel : Direction)
  | done (steps : List (Nat × Direction × String))
deriving DecidableEq, Repr

/-- The guidance engine (lines 137-188): BFS from the resolved node, then
either the single chosen turn (with the absolute direction to be logged as
`afterturn`) or the reconstructed walk back to root (logged with
`afterturn = forward`). -/
def guidance (nodes : List Node) (start : Nat) (facing : Direction)
    (force : Option Direction) (fuel : Nat) : Option (Instr × Direction) :=
  match bfsLoop nodes start facing force fuel (initBFS start) with
  | .ok st =>
    if st.found then
      match selectWalk st.par start fuel none with
      | none => none
      | some d => some (.turn (d - facing), d)
    else
      match rootPath st.par fuel 0 with
      | none => none
      | some steps =>
        match donePrints nodes facing steps.reverse with
        | none => none
        | some printed => some (.done printed, .forward)
  | _ => none

/-- Visible outcome of a `fork` invocation: a topology conflict (reported
with the two conflicting relative direction sets, no save), or success with
the database that gets persisted and the printed instruction. `none` is a
Python crash (no save either). -/
inductive ForkRes where
  | conflict (nodeId : Nat) (given stored : Direction → Bool)
  | success (db : DB) (instr : Instr)

/-- The whole `fork` command (lines 64-193): read the last log entry,
run the identification engine, run the guidance engine from the resolved
node, append the log entry and save. -/
def fork (db : DB) (dirs : List Direction) (force : Option Direction)
    (choice : Choice) (time : String) (fuel : Nat) : Option ForkRes :=
  match db.log.getLast? with
  | none => none
  | some last =>
    match identify db.nodes last dirs choice with
    | none => none
    | some (.conflict nid g s) => some (.conflict nid g s)
    | some (.resolved nodes2 nid) =>
      match guidance nodes2 nid last.afterturn force fuel with
      | none => none
      | some (instr, after) =>
        some (.success
          { nodes := nodes2
            log := db.log ++ [{ afterturn := after, time_enter := time, node := nid }] }
          instr)

/-- What is on disk after a `fork` invocation: only a successful run writes
the database back; a conflict returns before saving and a crash never
reaches the save, so the previously persisted database remains. -/
def persistedAfterFork (db : DB) (r : Option ForkRes) : DB :=
  match r with
  | some (.success db2 _) => db2
  | _ => db

/-- The in-memory database of a successful fork. -/
def dbAfter (r : Option ForkRes) : Option DB :=
  match r with
  | some (.success db _) => some db
  | _ => none

/-- The instruction printed by a successful fork. -/
def instrOf (r : Option ForkRes) : Option Instr :=
  match r with
  | some (.success _ i) => some i
  | _ => none

/-- The `undo` command (lines 195-208): drop the last log entry, and drop
the last node too when the last log entry references it; the lookup
`db['nodes'][db['log'][-1]['node']]` happens first and can raise. -/
def undo (db : DB) : Option DB :=
  match db.log.getLast? with
  | none => none
  | some last =>
    match db.nodes[last.node]? with
    | none => none
    | some _ =>
      some { nodes := if last.node = db.nodes.length - 1
                      then db.nodes.dropLast else db.nodes
             log := db.log.dropLast }

/-- A serialized node as `dump_dbfile` writes it: the `branches` dict with
direction-name keys, the description, and any extra top-level
direction-keyed entries (their `IntEnum` keys rendered through the int key
path of `json.dump`). -/
structure EncNode where
  branches : List (String × Option Nat)
  description : String
  extra : List (String × Nat)
deriving DecidableEq, Repr

/-- A serialized log entry: `afterturn` as a direction name. -/
structure EncLogEntry where
  afterturn : String
  time_enter : String
  node : Nat
deriving DecidableEq, Repr

/-- The serialized database. -/
structure EncDB where
  nodes : List EncNode
  log : List EncLogEntry
deriving DecidableEq, Repr

/-- Serialize one node (`node['branches'] = {d.name: v for d, v in ...}`);
`dump_dbfile` works on a deep copy, so the in-memory node is untouched. -/
def encodeNode (n : Node) : EncNode :=
  { branches := allDirs.filterMap (fun d => (n.branches.get d).map (fun v => (d.name, v)))
    description := n.description
    extra := allDirs.filterMap (fun d => (n.extra.get d).map (fun v => (dirIntKey d, v))) }

/-- Serialize one log entry (`entry['afterturn'] = entry['afterturn'].name`). -/
def encodeLogEntry (e : LogEntry) : EncLogEntry :=
  { afterturn := e.afterturn.name, time_enter := e.time_enter, node := e.node }

/-- Serialize the database (`dump_dbfile`). -/
def encodeDB (db : DB) : EncDB :=
  { nodes := db.nodes.map encodeNode, log := db.log.map encodeLogEntry }

/-- `MyDecoder`'s branch rewriting, `{Direction[d]: v for d, v in
obj['branches'].items()}`: an unknown direction name raises (none); a
duplicate key keeps the last value, as a dict comprehension does. -/
def decodeBranchesAux (b : Branches) :
    List (String × Option Nat) → Option Branches
  | [] => some b
  | (s, v) :: rest =>
    match directionOfName s with
    | none => none
    | some d => decodeBranchesAux (b.set d v) rest

/-- Decode one node. Nodes carrying extra direction-keyed entries serialize
those under plain string int keys which `MyDecoder` leaves as strings; such
records are outside the schema this embedding represents, so they are
rejected here. Schema-conforming nodes (no extras) are unaffected. -/
def decodeNode (e : EncNode) : Option Node :=
  match decodeBranchesAux DirMap.empty e.branches with
  | none => none
  | some b =>
    match e.extra with
    | [] => some { branches := b, description := e.description, extra := DirMap.empty }
    | _ => none

/-- Decode one log entry (`obj['afterturn'] = Direction[obj['afterturn']]`,
rejecting unknown names). -/
def decodeLogEntry (e : EncLogEntry) : Option LogEntry :=
  match directionOfName e.afterturn with
  | none => none
  | some d => some { afterturn := d, time_enter := e.time_enter, node := e.node }

/-- Decode the node list. -/
def decodeNodes : List EncNode → Option (List Node)
  | [] => some []
  | e :: rest =>
    match decodeNode e with
    | none => none
    | some n =>
      match decodeNodes rest with
      | none => none
      | some ns => some (n :: ns)

/-- Decode the log. -/
def decodeLog : List EncLogEntry → Option (List LogEntry)
  | [] => some []
  | e :: rest =>
    match decodeLogEntry e with
    | none => none
    | some n =>
      match decodeLog rest with
      | none => none
      | some ns => some (n :: ns)

/-- Decode the database (the load via `json.load(f, cls=MyDecoder)`). -/
def decodeDB (e : EncDB) : Option DB :=
  match decodeNodes e.nodes, decodeLog e.log with
  | some ns, some lg => some { nodes := ns, log := lg }
  | _, _ => none

/-- A database conforming to the documented schema: every node is exactly a
`branches` dict plus a `description`, with no extra top-level
direction-keyed entries. -/
def SchemaOK (db : DB) : Prop :=
  ∀ n ∈ db.nodes, n.extra = DirMap.empty

/-- Scenario A of the spec: `begin` at time `t0`, then `fork ""` (no extra
passages, no forced turn) at time `t1`. The disambiguation choice is never
consulted on this path. -/
def scenarioA : Option ForkRes :=
  fork (beginDB "t0") [] none (.describe "") "t1" 10

/-- The database scenario A persists. -/
def scenarioADB : Option DB := dbAfter scenarioA

/-- Scenario A followed by `undo`. -/
def scenarioAUndo : Option DB := scenarioADB.bind undo

/-- First step of the ambiguous-pick sequence: from `begin`, report two new
passages (relative right and left); no existing candidate matches, so the
operator types a fresh description. -/
def pickSeqDB1 : Option DB :=
  dbAfter (fork (beginDB "t0") [.right, .left] none (.describe "X") "t1" 10)

/-- Second step: facing left (per the previous guidance step), report
relative forward and left; the resulting expected set equals node 1's branch
set and node 1's behind slot (absolute right) is unexplored, so node 1 is a
listed candidate and the operator picks it by id. -/
def pickSeqDB2 : Option DB :=
  pickSeqDB1.bind (fun db => dbAfter (fork db [.forward, .left] none (.pick 1) "t2" 10))

/-- A two-node database whose node 1 is already known to connect back to
node 0: node 0's forward branch holds node 1 and node 1's backward branch
holds node 0, with the explorer logged at node 0 facing forward. Walking
forward and reporting directions resolves to known node 1. -/
def wDB : DB :=
  { nodes := [{ branches := DirMap.empty.set .forward (some 1)
                description := ""
                extra := DirMap.empty },
              { branches := DirMap.empty.set .backward (some 0)
                description := ""
                extra := DirMap.empty }]
    log := [{ afterturn := .forward, time_enter := "t0", node := 0 }] }

/-- A single node whose relative-right branch is unexplored; used to
exercise the forced-turn override at the start node. -/
def wNodeForce : Node :=
  { branches := DirMap.empty.set .right none
    description := ""
    extra := DirMap.empty }

/-- The database persisted by scenario A (used by several witnesses). -/
def scenarioASuccessDB : DB :=
  { nodes := [{ branches := DirMap.empty.set .forward (some 1)
                description := "root node"
                extra := DirMap.empty },
              { branches := DirMap.empty.set .backward (some 0)
                description := ""
                extra := DirMap.empty }]
    log := [{ afterturn := .forward, time_enter := "t0", node := 0 },
            { afterturn := .forward, time_enter := "t1", node := 1 }] }

/-- The database after `undo` on `wDB` (only the log entry goes away: node 0
is not the most recently created removable node there). -/
def wDBUndone : DB := { nodes := wDB.nodes, log := [] }

/-- The database persisted by the known-node fork on `wDB`: node 0 carries
the extra top-level `forward` entry holding the resolved id 1. -/
def wForkDB : DB :=
  { nodes := [{ branches := DirMap.empty.set .forward (some 1)
                description := ""
                extra := DirMap.empty.set .forward 1 },
              { branches := DirMap.empty.set .backward (some 0)
                description := ""
                extra := DirMap.empty }]
    log := [{ afterturn := .forward, time_enter := "t0", node := 0 },
            { afterturn := .forward, time_enter := "t1", node := 1 }] }

/-- Every non-null branch of `b` targets a node id below `bound`
(well-formedness of the stored edges against the node-list length). -/
def branchTargetsOK (bound : Nat) (b : Branches) : Bool :=
  allDirs.all (fun d =>
    match b.get d with
    | some (some j) => decide (j < bound)
    | _ => true)

/-- Invariant of the BFS frontier: every queued element is a real node id,
in range, and already present in the `distance` dict. -/
def FrontierOK (bound : Nat) (st : BFSCore) : Prop :=
  ∀ x ∈ st.frontier, ∃ i, x = some i ∧ i < bound ∧ (st.dist (some i)).isSome = true

theorem dir_add_sub : ∀ a b : Direction, (a + b) - b = a := by decide

theorem dir_sub_eq_iff : ∀ a b c : Direction, a - b = c ↔ a = c + b := by decide

theorem mem_allDirs (d : Direction) : d ∈ allDirs := by cases d <;> decide

theorem DirMap.get_set_self {α : Type} (m : DirMap α) (d : Direction) (v : α) :
    (m.set d v).get d = some v := by
  cases d <;> rfl

theorem roundtrip_node (n : Node) (h : n.extra = DirMap.empty) :
    decodeNode (encodeNode n) = some n := by
  obtain ⟨⟨f0, r0, b0, l0⟩, desc, ex⟩ := n
  simp only at h
  subst h
  cases f0 <;> cases r0 <;> cases b0 <;> cases l0 <;> rfl

theorem roundtrip_nodes (ns : List Node) (h : ∀ n ∈ ns, n.extra = DirMap.empty) :
    decodeNodes (ns.map encodeNode) = some ns := by
  induction ns with
  | nil => rfl
  | cons n rest ih =>
    have h1 : n.extra = DirMap.empty := h n (by simp)
    have h2 : ∀ m ∈ rest, m.extra = DirMap.empty := fun m hm => h m (by simp [hm])
    simp [List.map_cons, decodeNodes, roundtrip_node n h1, ih h2]

theorem roundtrip_logEntry (e : LogEntry) : decodeLogEntry (encodeLogEntry e) = some e := by
  obtain ⟨d, t, k⟩ := e
  cases d <;> rfl

theorem roundtrip_log (l : List LogEntry) : decodeLog (l.map encodeLogEntry) = some l := by
  induction l with
  | nil => rfl
  | cons e rest ih => simp [List.map_cons, decodeLog, roundtrip_logEntry e, ih]

/-- Claim C8: the direction algebra satisfies `sub (add a b) b = a` and
`opposite a = add a (opposite forward)`, `add` and `sub` land in the
four-element domain, and the letter mapping round-trips; all four operations
are total functions on the four-element domain. -/
theorem direction_algebra_laws :
    (∀ a b : Direction, (a + b) - b = a)
    ∧ (∀ a : Direction, a.opposite = a + Direction.opposite .forward)
    ∧ (∀ a b : Direction, (a + b) ∈ allDirs ∧ (a - b) ∈ allDirs)
    ∧ (∀ a : Direction, letter_dir a.letter = some a) := by
  refine ⟨?_, ?_, ?_, ?_⟩ <;> decide

/-- Claim C7: for every database conforming to the schema, deserializing the
result of serializing it yields the database unchanged, and the direction
name mapping is stable in both directions. Serialization is a pure function
of the database value (the source works on a deep copy), so the in-memory
database is not mutated. -/
theorem roundtrip_db :
    (∀ db : DB, SchemaOK db → decodeDB (encodeDB db) = some db)
    ∧ (∀ d : Direction, directionOfName d.name = some d)
    ∧ (∀ s : String, ∀ d : Direction, directionOfName s = some d → d.name = s) := by
  refine ⟨?_, by decide, ?_⟩
  · intro db h
    obtain ⟨ns, lg⟩ := db
    simp only [SchemaOK] at h
    simp [encodeDB, decodeDB, roundtrip_nodes ns h, roundtrip_log lg]
  · intro s d h
    unfold directionOfName at h
    split_ifs at h with h1 h2 h3 h4
    · simp only [Option.some.injEq] at h; subst h; rw [h1]; rfl
    · simp only [Option.some.injEq] at h; subst h; rw [h2]; rfl
    · simp only [Option.some.injEq] at h; subst h; rw [h3]; rfl
    · simp only [Option.some.injEq] at h; subst h; rw [h4]; rfl

/-- Witness for claim C7's theorem at the post-`begin` database. -/
theorem roundtrip_db_witness :
    decodeDB (encodeDB (beginDB "t0")) = some (beginDB "t0")
    ∧ directionOfName (Direction.name .left) = some .left
    ∧ Direction.name .right = "right" :=
  ⟨roundtrip_db.1 (beginDB "t0") (by unfold SchemaOK; decide),
   roundtrip_db.2.1 .left,
   roundtrip_db.2.2 "right" .right rfl⟩

/-- Claim C4 counterexample: after `begin`, a `fork` with an empty direction
string does not make the guidance engine instruct "go forward"; the new
node's only branch is the behind link, so nothing unexplored remains and the
engine reports exploration complete instead. -/
theorem scenarioA_instruction_not_forward :
    instrOf scenarioA ≠ some (Instr.turn Direction.forward) := by
  decide

/-- Claim C4 amended: after `begin`, a `fork` reporting no extra passages
creates exactly one new node whose only branch is the behind direction
pointing to the root, links it straight ahead of the root — and the guidance
engine then reports exploration complete (the walk back is the single
backward hop through the new node), logging `afterturn = forward`; it does
not instruct "go forward". -/
theorem fork_empty_after_begin :
    scenarioA = some (.success scenarioASuccessDB (.done [(1, .backward, "")])) := rfl

/-- Claim C3 counterexample: `begin`, `fork ""`, `undo` does not restore the
post-`begin` database. -/
theorem scenarioA_undo_ne_begin : scenarioAUndo ≠ some (beginDB "t0") := by
  decide

/-- Claim C3 amended: after scenario A's fork, `undo` removes the new node
and its log entry (the node list is back to just the root and the log to the
initial entry) but the root's forward branch still holds the removed node's
id 1 instead of reverting to unexplored, so the database differs from the
post-`begin` one in that field. -/
theorem scenarioA_undo_value :
    scenarioAUndo
      = some { nodes := [{ branches := DirMap.empty.set .forward (some 1)
                           description := "root node"
                           extra := DirMap.empty }]
               log := [{ afterturn := .forward, time_enter := "t0", node := 0 }] } := rfl

/-- Claim C5 counterexample: running `undo` directly after `begin` deletes
the root node (the node list becomes empty). -/
theorem undo_after_begin_removes_root :
    undo (beginDB "t0") = some { nodes := [], log := [] } := rfl

/-- Claim C2 (evaluation at the failing input): `begin`; `fork` reporting
relative right+left with a fresh description creating node 1; then, facing
left, `fork` reporting relative forward+left, resolved by the operator
picking candidate node 1. The fork succeeds and records the edge
(node 1, absolute left, node 1), but node 1's opposite (absolute right,
i.e. behind) slot still holds null instead of the previous node's id, and
node 1 is not newly created (the node count stays 2). -/
theorem pick_leaves_behind_slot_unset :
    (pickSeqDB2.bind (fun db => db.nodes[1]?)).map
        (fun n => (n.branches.get .left, n.branches.get (Direction.opposite .left)))
      = some (some (some 1), some none)
    ∧ pickSeqDB1.map (fun db => db.nodes.length) = some 2
    ∧ pickSeqDB2.map (fun db => db.nodes.length) = some 2 := by
  refine ⟨rfl, rfl, rfl⟩

theorem updateNodeAt_len (ns : List Node) (i : Nat) (f : Node → Node)
    (ns2 : List Node) (h : updateNodeAt ns i f = some ns2) :
    ns2.length = ns.length := by
  unfold updateNodeAt at h
  split at h
  · exact absurd h (by simp)
  · injection h with h
    subst h
    simp

theorem linkLast_spec (ns : List Node) (lid : Nat) (facing : Direction) (nid : Nat)
    (r : IdentRes) (h : linkLast ns lid facing nid = some r) :
    ∃ ns2, r = .resolved ns2 nid ∧ ns2.length = ns.length := by
  unfold linkLast at h
  split at h
  · exact absurd h (by simp)
  · next ns2 heq =>
    injection h with h
    exact ⟨ns2, h.symm, updateNodeAt_len _ _ _ _ heq⟩

theorem identifyCore_resolved_len (nodes : List Node) (facing : Direction) (lid : Nat)
    (dirs : List Direction) (choice : Choice) (ns2 : List Node) (nid : Nat)
    (h : identifyCore nodes facing lid dirs choice = some (.resolved ns2 nid)) :
    nodes.length ≤ ns2.length := by
  unfold identifyCore at h
  split at h
  · split at h
    · split at h
      · exact absurd h (by simp)
      · next ns1 hupd =>
        obtain ⟨ns3, hr, hlen⟩ := linkLast_spec _ _ _ _ _ h
        injection hr with h1 h2
        subst h1
        rw [hlen, updateNodeAt_len _ _ _ _ hupd]
    · simp at h
  · split at h
    · obtain ⟨ns3, hr, hlen⟩ := linkLast_spec _ _ _ _ _ h
      injection hr with h1 h2
      subst h1
      rw [hlen]
      simp
    · split at h
      · split at h
        · exact absurd h (by simp)
        · obtain ⟨ns3, hr, hlen⟩ := linkLast_spec _ _ _ _ _ h
          injection hr with h1 h2
          subst h1
          exact le_of_eq hlen.symm
      · obtain ⟨ns3, hr, hlen⟩ := linkLast_spec _ _ _ _ _ h
        injection hr with h1 h2
        subst h1
        rw [hlen]
        simp

theorem fork_success_nodes_len (db : DB) (dirs : List Direction)
    (force : Option Direction) (choice : Choice) (time : String) (fuel : Nat)
    (db2 : DB) (instr : Instr)
    (h : fork db dirs force choice time fuel = some (.success db2 instr)) :
    db.nodes.length ≤ db2.nodes.length := by
  unfold fork at h
  split at h
  · exact absurd h (by simp)
  · split at h
    · exact absurd h (by simp)
    · exact absurd h (by simp)
    · next nodes2 nid hident =>
      split at h
      · exact absurd h (by simp)
      · injection h with h
        injection h with h1 h2
        subst h1
        unfold identify at hident
        exact identifyCore_resolved_len _ _ _ _ _ _ _ hident

/-- Claim C5 amended: node 0 is never removed by a successful `fork` (the
node list only grows), and `undo` leaves node 0 in place whenever the node
list still has at least two nodes; the unguarded case is exactly an `undo`
on a database whose node list holds only the root and whose last log entry
references it (as `begin; undo` does), which deletes node 0. -/
theorem root_node_preservation :
    (∀ (db : DB) (dirs : List Direction) (force : Option Direction) (choice : Choice)
       (time : String) (fuel : Nat) (db2 : DB) (instr : Instr),
       fork db dirs force choice time fuel = some (.success db2 instr) →
       0 < db.nodes.length → 0 < db2.nodes.length)
    ∧ (∀ (db db2 : DB), undo db = some db2 → 2 ≤ db.nodes.length →
       db2.nodes[0]? = db.nodes[0]?) := by
  constructor
  · intro db dirs force choice time fuel db2 instr h hpos
    exact lt_of_lt_of_le hpos (fork_success_nodes_len _ _ _ _ _ _ _ _ h)
  · intro db db2 h hlen
    unfold undo at h
    split at h
    · exact absurd h (by simp)
    · split at h
      · exact absurd h (by simp)
      · injection h with h
        subst h
        match db, hlen with
        | ⟨a :: b :: rest, lg⟩, _ =>
          split
          · show ((a :: b :: rest).dropLast)[0]? = (a :: b :: rest)[0]?
            rw [show (a :: b :: rest).dropLast = a :: (b :: rest).dropLast from rfl]
            simp
          · rfl

/-- Witness for claim C5's amended theorem: a successful fork keeps the node
list nonempty, and an undo on a two-node database leaves node 0 in place. -/
theorem root_node_preservation_witness :
    0 < scenarioASuccessDB.nodes.length
    ∧ wDBUndone.nodes[0]? = wDB.nodes[0]? :=
  ⟨root_node_preservation.1 (beginDB "t0") [] none (.describe "") "t1" 10
      scenarioASuccessDB (Instr.done [(1, .backward, "")]) rfl (by decide),
   root_node_preservation.2 wDB wDBUndone rfl (by decide)⟩

theorem updateNodeAt_spec (ns : List Node) (i : Nat) (f : Node → Node)
    (ns2 : List Node) (h : updateNodeAt ns i f = some ns2) :
    ∃ n, ns[i]? = some n ∧ ns2 = ns.set i (f n) := by
  unfold updateNodeAt at h
  split at h
  · exact absurd h (by simp)
  · next n heq =>
    injection h with h
    exact ⟨n, heq, h.symm⟩

theorem lt_length_of_getElem_some {α : Type} (l : List α) (i : Nat) (a : α)
    (h : l[i]? = some a) : i < l.length := by
  simp [List.getElem?_eq_some] at h
  exact h.1

theorem getElem_set_self_of_lt {α : Type} (l : List α) (i : Nat) (a : α)
    (hi : i < l.length) : (l.set i a)[i]? = some a := by
  simp [List.getElem?_set_self', List.getElem?_eq_getElem, hi]

/-- Claim C1: whenever the identification engine resolves the location to a
known node (one whose behind-direction branch equals the previous log
entry's node id) whose branch-direction set differs from the expected
absolute set, the fork reports the two conflicting relative direction sets
(the reported one and the stored one re-expressed relative to facing) and
the persisted database is unchanged. -/
theorem conflict_aborts_without_saving (db : DB) (dirs : List Direction)
    (force : Option Direction) (choice : Choice) (time : String) (fuel : Nat)
    (last : LogEntry) (nid : Nat) (node : Node)
    (hlast : db.log.getLast? = some last)
    (hfind : findKnown db.nodes last.afterturn.opposite last.node = some (nid, node))
    (hne : dirSetEq (keysOf node.branches) (absBranches dirs last.afterturn) = false) :
    fork db dirs force choice time fuel
      = some (.conflict nid (reportedSet dirs)
          (storedRelSet (keysOf node.branches) last.afterturn))
    ∧ persistedAfterFork db (fork db dirs force choice time fuel) = db := by
  have hident : identify db.nodes last dirs choice
      = some (.conflict nid (reportedSet dirs)
          (storedRelSet (keysOf node.branches) last.afterturn)) := by
    unfold identify identifyCore
    simp [hfind, hne]
  have h1 : fork db dirs force choice time fuel
      = some (.conflict nid (reportedSet dirs)
          (storedRelSet (keysOf node.branches) last.afterturn)) := by
    unfold fork
    rw [hlast]
    simp only [hident]
  exact ⟨h1, by rw [h1]; rfl⟩

/-- Witness for claim C1's theorem: on `wDB` (known node 1 with branch set
`{backward}`), reporting a relative right passage conflicts with the stored
topology and nothing is persisted. -/
theorem conflict_aborts_without_saving_witness :
    fork wDB [.right] none (.describe "") "t1" 10
      = some (.conflict 1 (reportedSet [.right])
          (storedRelSet (keysOf (DirMap.empty.set .backward (some 0))) .forward))
    ∧ persistedAfterFork wDB (fork wDB [.right] none (.describe "") "t1" 10) = wDB :=
  conflict_aborts_without_saving wDB [.right] none (.describe "") "t1" 10
    { afterturn := .forward, time_enter := "t0", node := 0 } 1
    { branches := DirMap.empty.set .backward (some 0)
      description := ""
      extra := DirMap.empty }
    rfl rfl (by decide)

/-- Claim C9: whenever fork resolves the location to an already-known node
and the consistency check passes, it writes the resolved node id into the
previous node's record under a top-level key equal to the facing direction,
outside the `branches` dict, and that extra entry is included in the
serialized form of the node. -/
theorem known_node_sets_extra_field (db : DB) (dirs : List Direction)
    (force : Option Direction) (choice : Choice) (time : String) (fuel : Nat)
    (last : LogEntry) (nid : Nat) (node : Node) (db2 : DB) (instr : Instr)
    (hlast : db.log.getLast? = some last)
    (hfind : findKnown db.nodes last.afterturn.opposite last.node = some (nid, node))
    (heq : dirSetEq (keysOf node.branches) (absBranches dirs last.afterturn) = true)
    (hsucc : fork db dirs force choice time fuel = some (.success db2 instr)) :
    (db2.nodes[last.node]?).map (fun n => n.extra.get last.afterturn) = some (some nid)
    ∧ (db2.nodes[last.node]?).map
        (fun n => (encodeNode n).extra.any
          (fun p => p.1 == dirIntKey last.afterturn && p.2 == nid))
      = some true := by
  unfold fork at hsucc
  rw [hlast] at hsucc
  simp only [identify, identifyCore] at hsucc
  rw [hfind] at hsucc
  simp only [heq, if_true] at hsucc
  cases h1 : updateNodeAt db.nodes last.node
      (fun n => { n with extra := n.extra.set last.afterturn nid }) with
  | none => rw [h1] at hsucc; simp at hsucc
  | some ns1 =>
    rw [h1] at hsucc
    simp only [linkLast] at hsucc
    cases h2 : updateNodeAt ns1 last.node
        (fun n => { n with branches := n.branches.set last.afterturn (some nid) }) with
    | none => rw [h2] at hsucc; simp at hsucc
    | some ns2 =>
      rw [h2] at hsucc
      simp only [] at hsucc
      cases h3 : guidance ns2 nid last.afterturn force fuel with
      | none => rw [h3] at hsucc; simp at hsucc
      | some pr =>
        rw [h3] at hsucc
        obtain ⟨instr1, after⟩ := pr
        simp only [Option.some.injEq] at hsucc
        injection hsucc with hdb hinstr
        obtain ⟨n0, hn0, hns1⟩ := updateNodeAt_spec _ _ _ _ h1
        obtain ⟨n1, hn1, hns2⟩ := updateNodeAt_spec _ _ _ _ h2
        have hlt0 : last.node < db.nodes.length := lt_length_of_getElem_some _ _ _ hn0
        have hn1v : ns1[last.node]?
            = some { n0 with extra := n0.extra.set last.afterturn nid } := by
          rw [hns1]
          exact getElem_set_self_of_lt _ _ _ hlt0
        have hn1eq : n1 = { n0 with extra := n0.extra.set last.afterturn nid } := by
          rw [hn1] at hn1v
          injection hn1v
        have hlt1 : last.node < ns1.length := lt_length_of_getElem_some _ _ _ hn1
        have hget2 : ns2[last.node]?
            = some { n1 with branches := n1.branches.set last.afterturn (some nid) } := by
          rw [hns2]
          exact getElem_set_self_of_lt _ _ _ hlt1
        have hnodes : db2.nodes = ns2 := by rw [← hdb]
        rw [hnodes, hget2, hn1eq]
        constructor
        · simp [DirMap.get_set_self]
        · refine congrArg some ?_
          rw [List.any_eq_true]
          refine ⟨(dirIntKey last.afterturn, nid), ?_, by simp⟩
          simp only [encodeNode]
          apply List.mem_filterMap.mpr
          refine ⟨last.afterturn, mem_allDirs _, ?_⟩
          rw [DirMap.get_set_self]
          rfl

/-- Witness for claim C9's theorem: the known-node fork on `wDB`. -/
theorem known_node_sets_extra_field_witness :
    (wForkDB.nodes[0]?).map (fun n => n.extra.get .forward) = some (some 1)
    ∧ (wForkDB.nodes[0]?).map
        (fun n => (encodeNode n).extra.any
          (fun p => p.1 == dirIntKey .forward && p.2 == 1))
      = some true :=
  known_node_sets_extra_field wDB [] none (.describe "") "t1" 10
    { afterturn := .forward, time_enter := "t0", node := 0 } 1
    { branches := DirMap.empty.set .backward (some 0)
      description := ""
      extra := DirMap.empty }
    wForkDB (.done [(1, .backward, "")])
    rfl rfl (by decide) rfl

theorem mem_insertDesc (k : Direction → Nat) (x d : Direction) :
    ∀ l : List Direction, d ∈ insertDesc k x l ↔ d = x ∨ d ∈ l := by
  intro l
  induction l with
  | nil => simp [insertDesc]
  | cons e rest ih =>
    by_cases hc : k e ≤ k x
    · simp [insertDesc, hc]
    · simp only [insertDesc, if_neg hc, List.mem_cons, ih]
      tauto

theorem mem_sortDesc (k : Direction → Nat) (d : Direction) :
    ∀ l : List Direction, d ∈ sortDesc k l ↔ d ∈ l := by
  intro l
  induction l with
  | nil => simp [sortDesc]
  | cons e rest ih =>
    simp only [sortDesc, mem_insertDesc, ih, List.mem_cons]

theorem mem_sortedKeys (b : Branches) (facing d : Direction) :
    d ∈ sortedKeys b facing ↔ (b.get d).isSome = true := by
  unfold sortedKeys
  rw [mem_sortDesc, List.mem_filter]
  simp [mem_allDirs]

theorem expand_force_hit (start : Nat) (facing f : Direction) (bs : Branches)
    (dc : Nat) (hb : bs.get (f + facing) = some none) :
    ∀ (l : List Direction) (st : BFSCore), (f + facing) ∈ l →
      (expandDirs start facing (some f) start bs dc l st).found = true
      ∧ (expandDirs start facing (some f) start bs dc l st).par none
          = some (some (start, f + facing)) := by
  intro l
  induction l with
  | nil => intro st h; simp at h
  | cons d rest ih =>
    intro st hmem
    by_cases hd : d = f + facing
    · subst hd
      simp only [expandDirs, hb]
      rw [dir_add_sub]
      simp [mapSet]
    · have hmem2 : (f + facing) ∈ rest := by
        rcases List.mem_cons.mp hmem with h | h
        · exact absurd h.symm hd
        · exact h
      cases hg : bs.get d with
      | none => simp only [expandDirs, hg]; exact ih _ hmem2
      | some nextId =>
        simp only [expandDirs, hg]
        by_cases hc : nextId = none ∨ st.dist nextId = none
        · rw [if_pos hc]
          by_cases hn : nextId = none
          · rw [if_pos hn]
            have hdf : (some f : Option Direction) ≠ some (d - facing) := by
              intro hh
              injection hh with hh
              exact hd ((dir_sub_eq_iff d facing f).mp hh.symm)
            rw [if_neg (show ¬(True ∧ (some f : Option Direction) = some (d - facing)) by
              simp [hdf])]
            exact ih _ hmem2
          · rw [if_neg hn]
            exact ih _ hmem2
        · rw [if_neg hc]
          exact ih _ hmem2

theorem expand_force_indep (start : Nat) (facing : Direction)
    (force forceB : Option Direction) (current : Nat) (bs : Branches) (dc : Nat) :
    ∀ (l : List Direction) (st : BFSCore), current ≠ start →
      expandDirs start facing force current bs dc l st
        = expandDirs start facing forceB current bs dc l st := by
  intro l
  induction l with
  | nil => intro st h; rfl
  | cons d rest ih =>
    intro st hne
    cases hg : bs.get d with
    | none => simp only [expandDirs, hg]; exact ih _ hne
    | some nextId =>
      simp only [expandDirs, hg]
      by_cases hc : nextId = none ∨ st.dist nextId = none
      · rw [if_pos hc, if_pos hc]
        by_cases hn : nextId = none
        · rw [if_pos hn, if_pos hn]
          have h1 : ¬(current = start ∧ force = some (d - facing)) := fun hh => hne hh.1
          have h2 : ¬(current = start ∧ forceB = some (d - facing)) := fun hh => hne hh.1
          rw [if_neg h1, if_neg h2]
          exact ih _ hne
        · rw [if_neg hn, if_neg hn]
          exact ih _ hne
      · rw [if_neg hc, if_neg hc]
        exact ih _ hne

theorem guidance_force_hit (nodes : List Node) (start : Nat) (facing f : Direction)
    (fuel : Nat) (n : Node)
    (hget : nodes[start]? = some n)
    (hb : n.branches.get (f + facing) = some none) :
    guidance nodes start facing (some f) (fuel + 1) = some (.turn f, f + facing) := by
  have hmem : (f + facing) ∈ sortedKeys n.branches facing :=
    (mem_sortedKeys _ _ _).mpr (by rw [hb]; rfl)
  have hex := expand_force_hit start facing f n.branches 0 hb
    (sortedKeys n.branches facing)
    { dist := mapSet (fun _ => none) (some start) 0
      par := mapSet (fun _ => none) (some start) none
      frontier := []
      found := false } hmem
  have hloop : bfsLoop nodes start facing (some f) (fuel + 1) (initBFS start)
      = .ok (expandDirs start facing (some f) start n.branches 0
          (sortedKeys n.branches facing)
          { dist := mapSet (fun _ => none) (some start) 0
            par := mapSet (fun _ => none) (some start) none
            frontier := []
            found := false }) := by
    simp only [bfsLoop, initBFS]
    rw [hget]
    simp only [mapSet, if_pos rfl]
    simp only [hex.1, if_true]
  unfold guidance
  rw [hloop]
  simp only [hex.1, if_true]
  simp only [selectWalk, hex.2]
  simp [dir_add_sub]

theorem fork_logs_guidance (db : DB) (dirs : List Direction) (force : Option Direction)
    (choice : Choice) (time : String) (fuel : Nat) (last : LogEntry)
    (nodes2 : List Node) (nid : Nat) (instr : Instr) (after : Direction)
    (hlast : db.log.getLast? = some last)
    (hident : identify db.nodes last dirs choice = some (.resolved nodes2 nid))
    (hguid : guidance nodes2 nid last.afterturn force fuel = some (instr, after)) :
    fork db dirs force choice time fuel
      = some (.success
          { nodes := nodes2
            log := db.log ++ [{ afterturn := after, time_enter := time, node := nid }] }
          instr) := by
  unfold fork
  rw [hlast]
  simp only [hident, hguid]

/-- Claim C6: during the guidance BFS, if the node being expanded is the
start node itself and a branch whose target is unexplored has relative
direction equal to the forced-turn override, the search stops immediately
and that direction is selected — the instruction is the forced relative turn
and the appended log entry's afterturn is the corresponding absolute
direction (first two conjuncts: one unit of loop fuel suffices no matter
what the rest of the graph looks like, and fork logs exactly the direction
the guidance engine returns). While expanding any node other than the start
node, the override has no effect (third conjunct: the expansion step is the
same for any two override values). -/
theorem forced_turn_override :
    (∀ (nodes : List Node) (start : Nat) (facing f : Direction) (fuel : Nat) (n : Node),
       nodes[start]? = some n →
       n.branches.get (f + facing) = some none →
       guidance nodes start facing (some f) (fuel + 1) = some (.turn f, f + facing))
    ∧ (∀ (db : DB) (dirs : List Direction) (force : Option Direction) (choice : Choice)
         (time : String) (fuel : Nat) (last : LogEntry) (nodes2 : List Node) (nid : Nat)
         (instr : Instr) (after : Direction),
       db.log.getLast? = some last →
       identify db.nodes last dirs choice = some (.resolved nodes2 nid) →
       guidance nodes2 nid last.afterturn force fuel = some (instr, after) →
       fork db dirs force choice time fuel
         = some (.success
             { nodes := nodes2
               log := db.log ++ [{ afterturn := after, time_enter := time, node := nid }] }
             instr))
    ∧ (∀ (start : Nat) (facing : Direction) (force forceB : Option Direction)
         (current : Nat) (bs : Branches) (dc : Nat) (l : List Direction) (st : BFSCore),
       current ≠ start →
       expandDirs start facing force current bs dc l st
         = expandDirs start facing forceB current bs dc l st) :=
  ⟨guidance_force_hit,
   fork_logs_guidance,
   fun start facing force forceB current bs dc l st h =>
     expand_force_indep start facing force forceB current bs dc l st h⟩

/-- Witness for claim C6's theorem: a forced relative-right turn at a start
node with an unexplored relative-right branch; the fork logging equation on
the scenario A run; and a force-independent expansion of a non-start node. -/
theorem forced_turn_override_witness :
    guidance [wNodeForce] 0 .forward (some .right) 1 = some (.turn .right, .right)
    ∧ fork (beginDB "t0") [] none (.describe "") "t1" 10
        = some (.success scenarioASuccessDB (.done [(1, .backward, "")]))
    ∧ expandDirs 1 .forward none 0 DirMap.empty 0 [] (initBFS 0)
        = expandDirs 1 .forward (some .forward) 0 DirMap.empty 0 [] (initBFS 0) :=
  ⟨forced_turn_override.1 [wNodeForce] 0 .forward .right 0 wNodeForce rfl rfl,
   forced_turn_override.2.1 (beginDB "t0") [] none (.describe "") "t1" 10
     { afterturn := .forward, time_enter := "t0", node := 0 }
     scenarioASuccessDB.nodes 1 (.done [(1, .backward, "")]) .forward
     rfl rfl rfl,
   forced_turn_override.2.2 1 .forward none (some .forward) 0 DirMap.empty 0 []
     (initBFS 0) (by decide)⟩

theorem branchTargetsOK_get (bound : Nat) (b : Branches)
    (hb : branchTargetsOK bound b = true) (d : Direction) (j : Nat)
    (hj : b.get d = some (some j)) : j < bound := by
  unfold branchTargetsOK at hb
  have h := List.all_eq_true.mp hb d (mem_allDirs d)
  rw [hj] at h
  exact of_decide_eq_true h

theorem expand_found_mono (start : Nat) (facing : Direction) (force : Option Direction)
    (current : Nat) (bs : Branches) (dc : Nat) :
    ∀ (l : List Direction) (st : BFSCore), st.found = true →
      (expandDirs start facing force current bs dc l st).found = true := by
  intro l
  induction l with
  | nil => intro st h; exact h
  | cons d rest ih =>
    intro st h
    cases hg : bs.get d with
    | none => simp only [expandDirs, hg]; exact ih _ h
    | some nextId =>
      simp only [expandDirs, hg]
      by_cases hc : nextId = none ∨ st.dist nextId = none
      · rw [if_pos hc]
        by_cases hn : nextId = none
        · rw [if_pos hn]
          by_cases hbr : current = start ∧ force = some (d - facing)
          · rw [if_pos hbr]
          · rw [if_neg hbr]
            exact ih _ rfl
        · rw [if_neg hn]
          exact ih _ h
      · rw [if_neg hc]
        exact ih _ h

theorem expand_frontier_ok (bound start : Nat) (facing : Direction)
    (force : Option Direction) (current : Nat) (bs : Branches) (dc : Nat)
    (hbs : branchTargetsOK bound bs = true) :
    ∀ (l : List Direction) (st : BFSCore),
      FrontierOK bound st →
      (expandDirs start facing force current bs dc l st).found = false →
      FrontierOK bound (expandDirs start facing force current bs dc l st) := by
  intro l
  induction l with
  | nil => intro st hF _; exact hF
  | cons d rest ih =>
    intro st hF hfound
    cases hg : bs.get d with
    | none =>
      simp only [expandDirs, hg] at hfound ⊢
      exact ih _ hF hfound
    | some nextId =>
      simp only [expandDirs, hg] at hfound ⊢
      by_cases hc : nextId = none ∨ st.dist nextId = none
      · rw [if_pos hc] at hfound ⊢
        by_cases hn : nextId = none
        · rw [if_pos hn] at hfound ⊢
          by_cases hbr : current = start ∧ force = some (d - facing)
          · rw [if_pos hbr] at hfound
            simp at hfound
          · rw [if_neg hbr] at hfound
            exact absurd (expand_found_mono start facing force current bs dc rest _ rfl)
              (by rw [hfound]; simp)
        · rw [if_neg hn] at hfound ⊢
          obtain ⟨j, rfl⟩ := Option.ne_none_iff_exists'.mp hn
          have hj : j < bound := branchTargetsOK_get bound bs hbs d j hg
          apply ih _ _ hfound
          intro x hx
          rcases List.mem_append.mp hx with hx | hx
          · obtain ⟨i, rfl, hi, hdist⟩ := hF x hx
            refine ⟨i, rfl, hi, ?_⟩
            simp only [mapSet]
            split
            · rfl
            · exact hdist
          · rw [List.mem_singleton] at hx
            subst hx
            refine ⟨j, rfl, hj, ?_⟩
            simp [mapSet]
      · rw [if_neg hc] at hfound ⊢
        exact ih _ hF hfound

theorem bfs_no_stuck (nodes : List Node) (start : Nat) (facing : Direction)
    (force : Option Direction)
    (hwf : nodes.all (fun n => branchTargetsOK nodes.length n.branches) = true) :
    ∀ (fuel : Nat) (st : BFSCore), FrontierOK nodes.length st →
      bfsLoop nodes start facing force fuel st ≠ .badPop
      ∧ bfsLoop nodes start facing force fuel st ≠ .noNode
      ∧ bfsLoop nodes start facing force fuel st ≠ .noDist := by
  intro fuel
  induction fuel with
  | zero =>
    intro st _
    refine ⟨?_, ?_, ?_⟩ <;> simp [bfsLoop]
  | succ fuel ih =>
    intro st hF
    cases hfr : st.frontier with
    | nil =>
      refine ⟨?_, ?_, ?_⟩ <;> simp [bfsLoop, hfr]
    | cons x rest =>
      obtain ⟨i, rfl, hi, hdist⟩ := hF x (by rw [hfr]; exact List.mem_cons_self x rest)
      obtain ⟨cn, hcn⟩ : ∃ cn, nodes[i]? = some cn :=
        ⟨nodes[i], List.getElem?_eq_getElem hi⟩
      obtain ⟨dc, hdc⟩ := Option.isSome_iff_exists.mp hdist
      have hbs : branchTargetsOK nodes.length cn.branches = true :=
        List.all_eq_true.mp hwf cn (List.getElem?_mem hcn)
      have hred : bfsLoop nodes start facing force (fuel + 1) st
          = (if (expandDirs start facing force i cn.branches dc
                (sortedKeys cn.branches facing) { st with frontier := rest }).found
             then .ok (expandDirs start facing force i cn.branches dc
                (sortedKeys cn.branches facing) { st with frontier := rest })
             else bfsLoop nodes start facing force fuel
                (expandDirs start facing force i cn.branches dc
                  (sortedKeys cn.branches facing) { st with frontier := rest })) := by
        simp only [bfsLoop, hfr, hcn, hdc]
      rw [hred]
      by_cases hf1 : (expandDirs start facing force i cn.branches dc
          (sortedKeys cn.branches facing) { st with frontier := rest }).found = true
      · rw [if_pos hf1]
        refine ⟨?_, ?_, ?_⟩ <;> simp
      · rw [if_neg hf1]
        apply ih
        apply expand_frontier_ok nodes.length start facing force i cn.branches dc hbs
        · intro x hx
          obtain ⟨i2, rfl, hi2, hd2⟩ := hF x (by rw [hfr]; exact List.mem_cons_of_mem _ hx)
          exact ⟨i2, rfl, hi2, hd2⟩
        · exact Bool.not_eq_true _ ▸ hf1

/-- Claim C10: for a database whose stored edges all target node ids inside
the node list and a start node inside it, the guidance BFS loop never pops
the unexplored `None` placeholder from the frontier (that would crash the
`db['nodes'][current]` lookup) and every node-list lookup on a popped value
succeeds — the placeholder is appended, but the search always stops at the
end of the expansion that discovered it. -/
theorem bfs_never_pops_placeholder (nodes : List Node) (start : Nat)
    (facing : Direction) (force : Option Direction) (fuel : Nat)
    (hwf : nodes.all (fun n => branchTargetsOK nodes.length n.branches) = true)
    (hstart : start < nodes.length) :
    bfsLoop nodes start facing force fuel (initBFS start) ≠ .badPop
    ∧ bfsLoop nodes start facing force fuel (initBFS start) ≠ .noNode := by
  have h := bfs_no_stuck nodes start facing force hwf fuel (initBFS start) ?_
  · exact ⟨h.1, h.2.1⟩
  · intro x hx
    simp only [initBFS, List.mem_singleton] at hx
    subst hx
    exact ⟨start, rfl, hstart, by simp [initBFS, mapSet]⟩

/-- Witness for claim C10's theorem: the BFS of `wDB` from node 0. -/
theorem bfs_never_pops_placeholder_witness :
    bfsLoop wDB.nodes 0 .forward none 5 (initBFS 0) ≠ .badPop
    ∧ bfsLoop wDB.nodes 0 .forward none 5 (initBFS 0) ≠ .noNode :=
  bfs_never_pops_placeholder wDB.nodes 0 .forward none 5 (by decide) (by decide)
